import Mathlib

/-!
Verification development for the SIPSA food-price dashboard pipeline
(`nb/dashboard_app.py`).

The program is a pandas-based pipeline: `load_data` reads the master CSV,
normalizes column names and the text fields `grupo`, `producto`, `mercado`,
coerces the price column to numbers and drops rows without a date or a price;
`main` then filters by date range, product and market selection, and computes
summary indicators, a (date, market) time-series matrix, and a market ranking
by mean price.

Shallow embedding conventions:
* Text is a list of Unicode code points (`PStr := List Nat`); Python's
  `str.strip` / `str.upper` / `str.lower` / `str.replace` become the
  corresponding list operations (ASCII case mapping, which covers the data).
* Dates are opaque ordinals (`Int`): the upstream CSV date parser is external
  to the pipeline, so a raw row carries the parse outcome as `Option Int`
  (`none` models pandas `NaT`), and the `pd.to_numeric(..., errors="coerce")`
  outcome is carried as `Option ℚ` (`none` models `NaN`).
* Prices are exact rationals; pandas `.mean()` is sum divided by count.
* pandas `sort_values` / Python `sorted` are modelled with `insertionSort`
  (the properties proved below do not depend on the tie order, which the
  library leaves unspecified).
-/

/-- Text as a list of Unicode code points. -/
abbrev PStr := List Nat

/-- Whitespace code points removed by Python `str.strip` (ASCII range). -/
def isSpace (c : Nat) : Bool :=
  c = 32 || c = 9 || c = 10 || c = 11 || c = 12 || c = 13

/-- ASCII case mapping of Python `str.upper` on one code point. -/
def upperChar (c : Nat) : Nat :=
  if 97 ≤ c ∧ c ≤ 122 then c - 32 else c

/-- ASCII case mapping of Python `str.lower` on one code point. -/
def lowerChar (c : Nat) : Nat :=
  if 65 ≤ c ∧ c ≤ 90 then c + 32 else c

/-- Python `str.strip`: drop leading and trailing whitespace. -/
def strip (s : PStr) : PStr :=
  ((s.dropWhile isSpace).reverse.dropWhile isSpace).reverse

/-- Python `str.upper` on a whole string. -/
def upper (s : PStr) : PStr := s.map upperChar

/-- Value normalization applied to `grupo`, `producto`, `mercado` at load
time: `df[col].astype(str).str.strip().str.upper()`
(`dashboard_app.py` line 45). -/
def normalizeValue (s : PStr) : PStr := upper (strip s)

/-- Column-name normalization at load time:
`.str.strip().str.lower().str.replace(" ", "_").str.replace("*", "", regex=False)`
(`dashboard_app.py` lines 35-41). Code points: 32 is a space, 95 is `_`,
42 is `*`. -/
def normalizeColumn (s : PStr) : PStr :=
  (((strip s).map lowerChar).map (fun c => if c = 32 then 95 else c)).filter
    (fun c => c ≠ 42)

/-- One raw CSV row as it reaches the in-scope part of `load_data`:
`fecha` holds the upstream date-parse outcome (`none` = `NaT`), `precio`
holds the `pd.to_numeric(..., errors="coerce")` outcome (`none` = `NaN`). -/
structure RawRow where
  fecha : Option Int
  grupo : PStr
  producto : PStr
  codigo : PStr
  mercado : PStr
  precio : Option ℚ
deriving DecidableEq

/-- One retained observation of the Dataset. -/
structure Obs where
  fecha : Int
  grupo : PStr
  producto : PStr
  codigo : PStr
  mercado : PStr
  precio : ℚ
deriving DecidableEq

/-- Processing of one raw row by `load_data`: normalize the three text
fields, and keep the row only when it has a date and a numeric price
(the `df.dropna(subset=["fecha", "precio_promedio_por_kilogramo"])` of
`dashboard_app.py` line 55). -/
def loadRow (r : RawRow) : Option Obs :=
  match r.fecha, r.precio with
  | some d, some p =>
      some ⟨d, normalizeValue r.grupo, normalizeValue r.producto,
            r.codigo, normalizeValue r.mercado, p⟩
  | _, _ => none

/-- The Dataset produced by `load_data` (`dashboard_app.py` lines 34-57):
value normalization followed by the row-admission drop. -/
def load_data (rows : List RawRow) : List Obs :=
  rows.filterMap loadRow

/-- pandas `.mean()` of a numeric series: sum divided by count. -/
def mean (xs : List ℚ) : ℚ := xs.sum / (xs.length : ℚ)

/-- Minimum of a list of dates (`Series.min`). -/
def optMin : List Int → Option Int
  | [] => none
  | a :: t =>
      some (match optMin t with
            | none => a
            | some m => min a m)

/-- Maximum of a list of dates (`Series.max`). -/
def optMax : List Int → Option Int
  | [] => none
  | a :: t =>
      some (match optMax t with
            | none => a
            | some m => max a m)

/-- Order used by `df_producto.sort_values("fecha")`. -/
def fechaLe (a b : Obs) : Prop := a.fecha ≤ b.fecha

instance : DecidableRel fechaLe := fun a b => Int.decLe a.fecha b.fecha

/-- `df_producto_sorted = df_producto.sort_values("fecha")`
(`dashboard_app.py` line 159). -/
def dfSorted (v : List Obs) : List Obs := List.insertionSort fechaLe v

/-- `primer_fecha = df_producto_sorted["fecha"].min()` (line 162); the
default value is never reached on a non-empty view. -/
def fechaMin (v : List Obs) : Int :=
  (optMin ((dfSorted v).map (fun o => o.fecha))).getD 0

/-- `ultima_fecha = df_producto_sorted["fecha"].max()` (line 163). -/
def fechaMax (v : List Obs) : Int :=
  (optMax ((dfSorted v).map (fun o => o.fecha))).getD 0

/-- `precio_inicial`: mean price over the rows at the earliest date
(`dashboard_app.py` lines 165-169). -/
def precioInicial (v : List Obs) : ℚ :=
  mean (((dfSorted v).filter (fun o => o.fecha = fechaMin v)).map
    (fun o => o.precio))

/-- `precio_final`: mean price over the rows at the latest date
(`dashboard_app.py` lines 171-175). -/
def precioFinal (v : List Obs) : ℚ :=
  mean (((dfSorted v).filter (fun o => o.fecha = fechaMax v)).map
    (fun o => o.precio))

/-- `variacion_pct = (precio_final / precio_inicial - 1) * 100 if
precio_inicial > 0 else None` (`dashboard_app.py` lines 177-179). -/
def variacionPct (v : List Obs) : Option ℚ :=
  if 0 < precioInicial v then
    some ((precioFinal v / precioInicial v - 1) * 100)
  else none

/-- `precio_prom_periodo`: mean price over the whole filtered view
(`dashboard_app.py` line 181). -/
def precioPromPeriodo (v : List Obs) : ℚ :=
  mean ((dfSorted v).map (fun o => o.precio))

/-- Lexicographic order on code-point strings: Python `sorted` and the
pandas groupby key order both compare strings this way. -/
def lexLeB : List Nat → List Nat → Bool
  | [], _ => true
  | _ :: _, [] => false
  | a :: as, b :: bs => if a < b then true else if a = b then lexLeB as bs else false

/-- `lexLeB` as a relation, for use with `insertionSort`. -/
def lexLe (a b : PStr) : Prop := lexLeB a b = true

instance : DecidableRel lexLe := fun a b => decEq (lexLeB a b) true

/-- `sorted(...)` of Python on a list of normalized strings. -/
def sortLex (l : List PStr) : List PStr := List.insertionSort lexLe l

/-- The distinct markets of a view, in first-appearance order
(`Series.unique` keeps first appearance). -/
def mercadosOf (v : List Obs) : List PStr :=
  (v.map (fun o => o.mercado)).dedup

/-- `mercados_disponibles = sorted(df_producto["mercado"].dropna().unique())`
(`dashboard_app.py` line 129). -/
def mercadosDisponibles (v : List Obs) : List PStr :=
  sortLex (mercadosOf v)

/-- Default market selection (`dashboard_app.py` lines 130-134): all
available markets when there are at most 5, otherwise the first 5. -/
def mercadosDefault (v : List Obs) : List PStr :=
  if (mercadosDisponibles v).length ≤ 5 then mercadosDisponibles v
  else (mercadosDisponibles v).take 5

/-- A user query: inclusive date range, one product, selected markets
(the empty list is the "no selection" state of the multiselect). -/
structure FilterSpec where
  dateStart : Int
  dateEnd : Int
  producto : PStr
  mercados : List PStr

/-- Date-range plus product filter (`dashboard_app.py` lines 112-126):
`(df["fecha"] >= start) & (df["fecha"] <= end)` then
`df_periodo["producto"] == producto_sel`. -/
def dfProducto (ds : List Obs) (fs : FilterSpec) : List Obs :=
  (ds.filter (fun o =>
      decide (fs.dateStart ≤ o.fecha) && decide (o.fecha ≤ fs.dateEnd))).filter
    (fun o => decide (o.producto = fs.producto))

/-- The full filter stage (`dashboard_app.py` lines 112-144): date range,
product, then `if mercados_sel: df_producto[df_producto["mercado"].isin(mercados_sel)]`
— an empty selection filters nothing. -/
def filterView (ds : List Obs) (fs : FilterSpec) : List Obs :=
  if fs.mercados = [] then dfProducto ds fs
  else (dfProducto ds fs).filter (fun o => decide (o.mercado ∈ fs.mercados))

/-- Descending comparison on (market, mean price) pairs, the order of
`ranking_mercados.sort_values(ascending=False)`. -/
def descByPrecio (p q : PStr × ℚ) : Prop := q.2 ≤ p.2

instance : DecidableRel descByPrecio := fun p q => Rat.instDecidableLe q.2 p.2

/-- Ascending comparison on (market, mean price) pairs, the order of
`.sort_values(ascending=True)` used for the bottom slice. -/
def ascByPrecio (p q : PStr × ℚ) : Prop := p.2 ≤ q.2

instance : DecidableRel ascByPrecio := fun p q => Rat.instDecidableLe p.2 q.2

/-- `df_producto_sorted.groupby("mercado")["precio..."].mean()`
(`dashboard_app.py` lines 247-251): one (market, mean price) pair per
distinct market, keys in sorted order as pandas groupby yields them. -/
def groupbyMercadoMean (v : List Obs) : List (PStr × ℚ) :=
  (sortLex (mercadosOf (dfSorted v))).map (fun m =>
    (m, mean (((dfSorted v).filter (fun o => decide (o.mercado = m))).map
      (fun o => o.precio))))

/-- `ranking_mercados = ... .sort_values(ascending=False)`
(`dashboard_app.py` lines 247-253). -/
def rankingMercados (v : List Obs) : List (PStr × ℚ) :=
  List.insertionSort descByPrecio (groupbyMercadoMean v)

/-- `top_n = 10 if len(ranking_mercados) > 10 else len(ranking_mercados)`
(`dashboard_app.py` line 255). -/
def topN (v : List Obs) : Nat := min 10 (rankingMercados v).length

/-- `ranking_mercados.head(top_n)` (line 261): most expensive markets. -/
def topMercados (v : List Obs) : List (PStr × ℚ) :=
  (rankingMercados v).take (topN v)

/-- `ranking_mercados.tail(top_n).sort_values(ascending=True)` (line 265):
cheapest markets, re-sorted ascending for presentation. -/
def bottomMercados (v : List Obs) : List (PStr × ℚ) :=
  List.insertionSort ascByPrecio
    ((rankingMercados v).drop ((rankingMercados v).length - topN v))

/-- `serie = df_producto_sorted.groupby(["fecha", "mercado"])[...].mean().reset_index()`
(`dashboard_app.py` lines 218-224): one (date, market, mean price) triple
per distinct (date, market) pair of the view. -/
def serie (v : List Obs) : List (Int × PStr × ℚ) :=
  (((dfSorted v).map (fun o => (o.fecha, o.mercado))).dedup).map (fun k =>
    (k.1, k.2, mean (((dfSorted v).filter
        (fun o => decide (o.fecha = k.1) && decide (o.mercado = k.2))).map
      (fun o => o.precio))))

/-- Cell lookup in `pivot = serie.pivot(index="fecha", columns="mercado", ...)`
(`dashboard_app.py` lines 227-231): the cell for (date, market) holds the
value of the unique matching `serie` row, and is empty when none exists. -/
def pivotCell (s : List (Int × PStr × ℚ)) (d : Int) (m : PStr) : Option ℚ :=
  (s.find? (fun t => decide (t.1 = d) && decide (t.2.1 = m))).map
    (fun t => t.2.2)

/-- The (date, market) cell of the time-series matrix built by tab 1. -/
def buildMatrix (v : List Obs) (d : Int) (m : PStr) : Option ℚ :=
  pivotCell (serie v) d m

/-- Concrete raw input used to exhibit that `*` survives value
normalization: the market name is `A*` (code points 65, 42). -/
def c1Rows : List RawRow :=
  [⟨some 0, [71], [80], [67], [65, 42], some 1⟩]

/-- The observation that `load_data` produces from the single row of
`c1Rows`. -/
def c1Obs : Obs := ⟨0, [71], [80], [67], [65, 42], 1⟩

/-- Spec-side comparison definition, following the spec's words: the
minimum date in the view (taken directly on the view, not on the sorted
frame). -/
def specMinDate (v : List Obs) : Int :=
  (optMin (v.map (fun o => o.fecha))).getD 0

/-- Spec-side comparison definition: the maximum date in the view. -/
def specMaxDate (v : List Obs) : Int :=
  (optMax (v.map (fun o => o.fecha))).getD 0

/-- Spec-side comparison definition: the arithmetic mean of `price_per_kg`
over all observations whose date equals the minimum date in the view. -/
def specInitialPrice (v : List Obs) : ℚ :=
  mean ((v.filter (fun o => o.fecha = specMinDate v)).map (fun o => o.precio))

/-- Spec-side comparison definition: the same mean at the maximum date. -/
def specFinalPrice (v : List Obs) : ℚ :=
  mean ((v.filter (fun o => o.fecha = specMaxDate v)).map (fun o => o.precio))

/-- Spec-side comparison definition: the arithmetic mean over every
observation in the view. -/
def specPeriodAverage (v : List Obs) : ℚ :=
  mean (v.map (fun o => o.precio))

instance : IsTotal (PStr × ℚ) descByPrecio :=
  ⟨fun a b => le_total b.2 a.2⟩

instance : IsTrans (PStr × ℚ) descByPrecio :=
  ⟨fun _ _ _ h1 h2 => le_trans h2 h1⟩

instance : IsTotal (PStr × ℚ) ascByPrecio :=
  ⟨fun a b => le_total a.2 b.2⟩

instance : IsTrans (PStr × ℚ) ascByPrecio :=
  ⟨fun _ _ _ h1 h2 => le_trans h1 h2⟩

instance : IsTotal PStr lexLe := by
  constructor
  intro a b
  induction a generalizing b with
  | nil => left; rfl
  | cons x xs ih =>
    cases b with
    | nil => right; rfl
    | cons y ys =>
      rcases Nat.lt_trichotomy x y with h | h | h
      · left; show lexLeB _ _ = true; rw [lexLeB]; simp [h]
      · subst h
        rcases ih ys with h1 | h1
        · left; show lexLeB _ _ = true; rw [lexLeB]; simp; exact h1
        · right; show lexLeB _ _ = true; rw [lexLeB]; simp; exact h1
      · right; show lexLeB _ _ = true; rw [lexLeB]; simp [h]

instance : IsTrans PStr lexLe := by
  refine ⟨fun a => ?_⟩
  induction a with
  | nil => intro b c _ _; rfl
  | cons x xs ih =>
    intro b c hab hbc
    cases b with
    | nil => exact absurd hab (by simp [lexLe, lexLeB])
    | cons y ys =>
      cases c with
      | nil => exact absurd hbc (by simp [lexLe, lexLeB])
      | cons z zs =>
        simp only [lexLe, lexLeB] at hab hbc ⊢
        split at hab
        · rename_i hxy
          split at hbc
          · rename_i hyz
            have hxz : x < z := by omega
            simp [hxz]
          · split at hbc
            · rename_i hyz
              have hxz : x < z := by omega
              simp [hxz]
            · simp at hbc
        · split at hab
          · rename_i hxy
            subst hxy
            split at hbc
            · rename_i hyz
              simp [hyz]
            · split at hbc
              · rename_i hyz
                subst hyz
                simp
                exact ih ys zs hab hbc
              · simp at hbc
          · simp at hab

/-- Concrete raw rows for the row-admission checks: one complete row, one
without a date, one without a price. -/
def c2r : RawRow := ⟨some 3, [71], [80], [67], [77], some 5⟩

/-- The raw input containing `c2r` plus the two deficient rows. -/
def c2Rows : List RawRow :=
  [c2r, ⟨none, [71], [80], [67], [77], some 7⟩,
   ⟨some 1, [71], [80], [67], [77], none⟩]

/-- The three-row RICE scenario of the spec: markets `A` (65) and `B` (66),
product `RICE` (82, 73, 67, 69), dates 2023-01-01 and 2023-02-01 encoded as
ordinals 0 and 31. -/
def scRows : List RawRow :=
  [⟨some 0, [71], [82, 73, 67, 69], [67], [65], some 1000⟩,
   ⟨some 0, [71], [82, 73, 67, 69], [67], [66], some 2000⟩,
   ⟨some 31, [71], [82, 73, 67, 69], [67], [65], some 1500⟩]

/-- The scenario query: product RICE, dates 0 to 31, no market selection. -/
def scSpec : FilterSpec := ⟨0, 31, [82, 73, 67, 69], []⟩

/-- The scenario FilteredView. -/
def scView : List Obs := filterView (load_data scRows) scSpec

/-- A one-row view with a negative price, reachable because
`pd.to_numeric` accepts negative numbers and `load_data` never checks the
sign. -/
def c3View : List Obs := [⟨0, [], [], [], [65], -1⟩]

/-- A two-row view with non-negative prices. -/
def c3wView : List Obs := [⟨0, [], [], [], [65], 2⟩, ⟨1, [], [], [], [66], 4⟩]

/-- A two-market view for ranking checks. -/
def c6View : List Obs := [⟨0, [], [], [], [65], 1⟩, ⟨0, [], [], [], [66], 3⟩]

/-- A two-row dataset for the empty-market-selection check. -/
def c7Ds : List Obs := [⟨0, [], [80], [], [65], 1⟩, ⟨1, [], [80], [], [66], 2⟩]

/-- A query with an empty market selection. -/
def c7Fs : FilterSpec := ⟨0, 1, [80], []⟩

/-- A two-row view whose observations share one date. -/
def c8View : List Obs := [⟨7, [], [], [], [65], 3⟩, ⟨7, [], [], [], [66], 5⟩]

/-- A view with six distinct markets (code points 65 to 70). -/
def c10View : List Obs :=
  [⟨0, [], [], [], [70], 1⟩, ⟨0, [], [], [], [69], 2⟩, ⟨0, [], [], [], [68], 3⟩,
   ⟨0, [], [], [], [67], 4⟩, ⟨0, [], [], [], [66], 5⟩, ⟨0, [], [], [], [65], 6⟩]

/-! ### Helper lemmas about normalization -/

theorem getLast?_dropWhile (p : Nat → Bool) (l : List Nat) :
    (l.dropWhile p).getLast? = l.getLast? ∨ l.dropWhile p = [] := by
  induction l with
  | nil => right; rfl
  | cons a t ih =>
    rw [List.dropWhile_cons]
    by_cases h : p a
    · simp only [h, if_true]
      rcases ih with h1 | h1
      · cases t with
        | nil => right; simp
        | cons b u => left; rw [h1, List.getLast?_cons_cons]
      · right; exact h1
    · simp [h]

theorem head?_dropWhile (p : Nat → Bool) (l : List Nat) (a : Nat)
    (h : (l.dropWhile p).head? = some a) : p a = false := by
  induction l with
  | nil => simp at h
  | cons b t ih =>
    rw [List.dropWhile_cons] at h
    by_cases hb : p b = true
    · exact ih (by simpa [hb] using h)
    · have hbf : p b = false := by revert hb; cases p b <;> simp
      rw [if_neg hb, List.head?_cons, Option.some_inj] at h
      rw [← h]
      exact hbf

theorem head?_strip (s : PStr) (a : Nat) (h : (strip s).head? = some a) :
    isSpace a = false := by
  rw [strip, List.head?_reverse] at h
  rcases getLast?_dropWhile isSpace (s.dropWhile isSpace).reverse with h1 | h1
  · rw [h1, List.getLast?_reverse] at h
    exact head?_dropWhile isSpace s a h
  · rw [h1] at h
    simp at h

theorem getLast?_strip (s : PStr) (a : Nat) (h : (strip s).getLast? = some a) :
    isSpace a = false := by
  rw [strip, List.getLast?_reverse] at h
  exact head?_dropWhile isSpace (s.dropWhile isSpace).reverse a h

theorem isSpace_upperChar (a : Nat) : isSpace (upperChar a) = isSpace a := by
  rw [upperChar]
  split
  · rename_i h
    have h1 : isSpace (a - 32) = false := by
      simp only [isSpace, Bool.or_eq_false_iff, decide_eq_false_iff_not]
      omega
    have h2 : isSpace a = false := by
      simp only [isSpace, Bool.or_eq_false_iff, decide_eq_false_iff_not]
      omega
    rw [h1, h2]
  · rfl

theorem not_lower_upperChar (a : Nat) : ¬(97 ≤ upperChar a ∧ upperChar a ≤ 122) := by
  rw [upperChar]
  split <;> omega

theorem normalizeValue_trim_upper (s : PStr) :
    (∀ a, (normalizeValue s).head? = some a → isSpace a = false) ∧
    (∀ a, (normalizeValue s).getLast? = some a → isSpace a = false) ∧
    (∀ c ∈ normalizeValue s, ¬(97 ≤ c ∧ c ≤ 122)) := by
  refine ⟨fun a ha => ?_, fun a ha => ?_, fun c hc => ?_⟩
  · rw [normalizeValue, upper, List.head?_map] at ha
    cases hs : (strip s).head? with
    | none => rw [hs] at ha; exact absurd ha (by simp)
    | some b =>
      rw [hs] at ha
      have hab : upperChar b = a := by
        have : Option.map upperChar (some b) = some (upperChar b) := rfl
        rw [this, Option.some_inj] at ha
        exact ha
      have := head?_strip s b hs
      rw [← hab, isSpace_upperChar]
      exact this
  · rw [normalizeValue, upper, List.getLast?_map] at ha
    cases hs : (strip s).getLast? with
    | none => rw [hs] at ha; exact absurd ha (by simp)
    | some b =>
      rw [hs] at ha
      have hab : upperChar b = a := by
        have : Option.map upperChar (some b) = some (upperChar b) := rfl
        rw [this, Option.some_inj] at ha
        exact ha
      have := getLast?_strip s b hs
      rw [← hab, isSpace_upperChar]
      exact this
  · rw [normalizeValue, upper] at hc
    rcases List.mem_map.mp hc with ⟨b, _, hb⟩
    rw [← hb]
    exact not_lower_upperChar b

theorem normalizeColumn_no_star (s : PStr) : (42 : Nat) ∉ normalizeColumn s := by
  intro h
  rw [normalizeColumn] at h
  have := (List.mem_filter.mp h).2
  simp at this

theorem mem_load_data {rows : List RawRow} {o : Obs} (h : o ∈ load_data rows) :
    ∃ r ∈ rows, o.grupo = normalizeValue r.grupo ∧
      o.producto = normalizeValue r.producto ∧
      o.mercado = normalizeValue r.mercado := by
  rw [load_data] at h
  rcases List.mem_filterMap.mp h with ⟨r, hr, hload⟩
  refine ⟨r, hr, ?_⟩
  rw [loadRow] at hload
  rcases hf : r.fecha with _ | d <;> rcases hp : r.precio with _ | p <;>
    rw [hf, hp] at hload <;> simp at hload
  subst hload
  exact ⟨rfl, rfl, rfl⟩

/-! ### Helper lemmas about permutations, means and extrema -/

theorem dfSorted_perm (v : List Obs) : List.Perm (dfSorted v) v :=
  List.perm_insertionSort fechaLe v

theorem mean_perm {l₁ l₂ : List ℚ} (h : List.Perm l₁ l₂) : mean l₁ = mean l₂ := by
  rw [mean, mean, h.sum_eq, h.length_eq]

theorem optMin_perm {l₁ l₂ : List Int} (h : List.Perm l₁ l₂) :
    optMin l₁ = optMin l₂ := by
  induction h with
  | nil => rfl
  | cons a _ ih => rw [optMin, optMin, ih]
  | swap a b t =>
    rw [optMin, optMin, optMin, optMin]
    cases ht : optMin t <;> simp <;> omega
  | trans _ _ ih1 ih2 => rw [ih1, ih2]

theorem optMax_perm {l₁ l₂ : List Int} (h : List.Perm l₁ l₂) :
    optMax l₁ = optMax l₂ := by
  induction h with
  | nil => rfl
  | cons a _ ih => rw [optMax, optMax, ih]
  | swap a b t =>
    rw [optMax, optMax, optMax, optMax]
    cases ht : optMax t <;> simp <;> omega
  | trans _ _ ih1 ih2 => rw [ih1, ih2]

theorem optMin_all_eq (d : Int) :
    ∀ l : List Int, l ≠ [] → (∀ x ∈ l, x = d) → optMin l = some d
  | [], h, _ => absurd rfl h
  | [a], _, hall => by rw [optMin, optMin]; rw [hall a (by simp)]
  | a :: b :: u, _, hall => by
    have ih := optMin_all_eq d (b :: u) (by simp)
      (fun x hx => hall x (List.mem_cons_of_mem a hx))
    rw [optMin, ih, hall a (by simp)]
    simp

theorem optMax_all_eq (d : Int) :
    ∀ l : List Int, l ≠ [] → (∀ x ∈ l, x = d) → optMax l = some d
  | [], h, _ => absurd rfl h
  | [a], _, hall => by rw [optMax, optMax]; rw [hall a (by simp)]
  | a :: b :: u, _, hall => by
    have ih := optMax_all_eq d (b :: u) (by simp)
      (fun x hx => hall x (List.mem_cons_of_mem a hx))
    rw [optMax, ih, hall a (by simp)]
    simp

theorem fechaMin_eq_spec (v : List Obs) : fechaMin v = specMinDate v := by
  rw [fechaMin, specMinDate, optMin_perm ((dfSorted_perm v).map (fun o => o.fecha))]

theorem fechaMax_eq_spec (v : List Obs) : fechaMax v = specMaxDate v := by
  rw [fechaMax, specMaxDate, optMax_perm ((dfSorted_perm v).map (fun o => o.fecha))]

/-! ### Claim C1 -/

/-- Claim C1 (counterexample): a raw row whose market value contains `*`
is loaded with the `*` still present — value normalization strips
whitespace and uppercases but does not remove `*`. -/
theorem c1_star_survives : ∃ o ∈ load_data c1Rows, (42 : Nat) ∈ o.mercado := by
  decide

/-- Claim C1 (amended): the normalization applied at load time to the
values of `grupo`, `producto` and `mercado` trims surrounding whitespace
and uppercases, so no loaded value has surrounding whitespace or a
lowercase ASCII letter; literal `*` characters are stripped only from
column names (`normalizeColumn`), not from values. -/
theorem c1_value_normalization (rows : List RawRow) (o : Obs)
    (h : o ∈ load_data rows) :
    ((∀ a, o.grupo.head? = some a → isSpace a = false) ∧
     (∀ a, o.grupo.getLast? = some a → isSpace a = false) ∧
     (∀ c ∈ o.grupo, ¬(97 ≤ c ∧ c ≤ 122))) ∧
    ((∀ a, o.producto.head? = some a → isSpace a = false) ∧
     (∀ a, o.producto.getLast? = some a → isSpace a = false) ∧
     (∀ c ∈ o.producto, ¬(97 ≤ c ∧ c ≤ 122))) ∧
    ((∀ a, o.mercado.head? = some a → isSpace a = false) ∧
     (∀ a, o.mercado.getLast? = some a → isSpace a = false) ∧
     (∀ c ∈ o.mercado, ¬(97 ≤ c ∧ c ≤ 122))) ∧
    (∀ s : PStr, (42 : Nat) ∉ normalizeColumn s) := by
  rcases mem_load_data h with ⟨r, _, hg, hp, hm⟩
  rw [hg, hp, hm]
  exact ⟨normalizeValue_trim_upper r.grupo, normalizeValue_trim_upper r.producto,
    normalizeValue_trim_upper r.mercado, normalizeColumn_no_star⟩

/-- Witness for `c1_value_normalization` at the concrete loaded row. -/
theorem c1_value_normalization_witness :
    c1Obs ∈ load_data c1Rows ∧ (∀ c ∈ c1Obs.mercado, ¬(97 ≤ c ∧ c ≤ 122)) :=
  ⟨by decide, (c1_value_normalization c1Rows c1Obs (by decide)).2.2.1.2.2⟩

/-! ### Claim C2 -/

/-- Claim C2: a raw row is retained by `load_data` exactly when its date
parsed and its price coerced to a number; the number of retained
observations is the count of such rows (and every retained observation
carries a total `fecha : Int` and `precio : ℚ`, so the post-load invariant
holds by construction). -/
theorem c2_row_admission (rows : List RawRow) :
    (∀ r ∈ rows, ((loadRow r).isSome ↔ (r.fecha.isSome ∧ r.precio.isSome))) ∧
    (load_data rows).length =
      rows.countP (fun r => r.fecha.isSome && r.precio.isSome) := by
  constructor
  · intro r _
    cases hf : r.fecha <;> cases hp : r.precio <;> simp [loadRow, hf, hp]
  · induction rows with
    | nil => rfl
    | cons r t ih =>
      rw [load_data] at ih
      rw [load_data, List.filterMap_cons, List.countP_cons]
      cases hf : r.fecha <;> cases hp : r.precio <;>
        simp [loadRow, hf, hp, ih]

/-- Witness for `c2_row_admission` on the concrete three-row input. -/
theorem c2_row_admission_witness :
    ((loadRow c2r).isSome ↔ (c2r.fecha.isSome ∧ c2r.precio.isSome)) ∧
    (load_data c2Rows).length =
      c2Rows.countP (fun r => r.fecha.isSome && r.precio.isSome) :=
  ⟨(c2_row_admission c2Rows).1 c2r (by decide), (c2_row_admission c2Rows).2⟩

/-! ### Claim C3 -/

theorem precioInicial_nonneg (v : List Obs) (hp : ∀ o ∈ v, 0 ≤ o.precio) :
    0 ≤ precioInicial v := by
  rw [precioInicial, mean]
  apply div_nonneg
  · apply List.sum_nonneg
    intro x hx
    rcases List.mem_map.mp hx with ⟨o, ho, rfl⟩
    exact hp o ((dfSorted_perm v).subset (List.mem_of_mem_filter ho))
  · exact Nat.cast_nonneg _

/-- Claim C3 (counterexample): on a one-row view with price `-1` the code
yields a null `variation_pct` although `initial_price` is `-1`, not zero —
the guard is `precio_inicial > 0`, not `== 0`. -/
theorem c3_negative_initial :
    variacionPct c3View = none ∧ precioInicial c3View ≠ 0 := by
  have h : precioInicial c3View = -1 := by
    norm_num [precioInicial, c3View, dfSorted, List.insertionSort, fechaMin,
      optMin, mean, List.filter]
  constructor
  · rw [variacionPct, if_neg]
    rw [h]
    norm_num
  · rw [h]
    norm_num

/-- Claim C3 (amended): on a non-empty view whose prices are all
non-negative, `variation_pct` is null exactly when `initial_price` is
zero, and whenever it is non-null it equals
`(final_price / initial_price - 1) * 100` (an exact rational, hence never
infinite or NaN). On views with a negative initial mean the code also
yields null, because the guard is `initial_price > 0`. -/
theorem c3_variation_guard (v : List Obs) (_hv : v ≠ [])
    (hp : ∀ o ∈ v, 0 ≤ o.precio) :
    (variacionPct v = none ↔ precioInicial v = 0) ∧
    (∀ q, variacionPct v = some q →
      q = (precioFinal v / precioInicial v - 1) * 100) := by
  have h0 := precioInicial_nonneg v hp
  constructor
  · rw [variacionPct]
    split
    · rename_i hgt
      constructor
      · intro h
        exact absurd h (by simp)
      · intro h
        rw [h] at hgt
        exact absurd hgt (lt_irrefl 0)
    · rename_i hle
      constructor
      · intro _
        exact le_antisymm (not_lt.mp hle) h0
      · intro _
        rfl
  · intro q hq
    rw [variacionPct] at hq
    split at hq
    · exact (Option.some_inj.mp hq).symm
    · exact absurd hq (by simp)

/-- Witness for `c3_variation_guard` on a concrete non-negative view. -/
theorem c3_variation_guard_witness :
    c3wView ≠ [] ∧ (variacionPct c3wView = none ↔ precioInicial c3wView = 0) :=
  ⟨by decide, (c3_variation_guard c3wView (by decide) (by decide)).1⟩

/-! ### Claim C4 -/

/-- Claim C4: the indicators computed over the sorted frame equal the
spec-side means — `initial_price` is the mean of `price_per_kg` at the
minimum date of the view, `final_price` the mean at the maximum date, and
`period_average_price` the mean over every observation; on the three-row
RICE scenario they evaluate to 1500, 1500 and 1500 with
`variation_pct = 0`. -/
theorem c4_indicator_means :
    (∀ v : List Obs,
      precioInicial v = specInitialPrice v ∧
      precioFinal v = specFinalPrice v ∧
      precioPromPeriodo v = specPeriodAverage v) ∧
    (precioInicial scView = 1500 ∧ precioFinal scView = 1500 ∧
      variacionPct scView = some 0 ∧ precioPromPeriodo scView = 1500) := by
  constructor
  · intro v
    refine ⟨?_, ?_, ?_⟩
    · rw [precioInicial, specInitialPrice, fechaMin_eq_spec]
      exact mean_perm (((dfSorted_perm v).filter _).map _)
    · rw [precioFinal, specFinalPrice, fechaMax_eq_spec]
      exact mean_perm (((dfSorted_perm v).filter _).map _)
    · rw [precioPromPeriodo, specPeriodAverage]
      exact mean_perm ((dfSorted_perm v).map _)
  · have hv : scView = [⟨0, [71], [82, 73, 67, 69], [67], [65], 1000⟩,
        ⟨0, [71], [82, 73, 67, 69], [67], [66], 2000⟩,
        ⟨31, [71], [82, 73, 67, 69], [67], [65], 1500⟩] := by
      norm_num [scView, filterView, dfProducto, scSpec, scRows, load_data, loadRow,
        normalizeValue, upper, strip, upperChar, isSpace, List.filterMap, List.filter]
    rw [hv]
    norm_num [precioInicial, precioFinal, variacionPct, precioPromPeriodo, dfSorted,
      List.insertionSort, List.orderedInsert, fechaLe, fechaMin, fechaMax, optMin,
      optMax, mean, List.filter]

/-! ### Claim C6 -/

theorem mercadosOf_dfSorted_perm (v : List Obs) :
    List.Perm (mercadosOf (dfSorted v)) (mercadosOf v) := by
  rw [mercadosOf, mercadosOf]
  exact ((dfSorted_perm v).map (fun o => o.mercado)).dedup

theorem rankingMercados_length (v : List Obs) :
    (rankingMercados v).length = (mercadosOf v).length := by
  rw [rankingMercados, (List.perm_insertionSort descByPrecio _).length_eq,
    groupbyMercadoMean, List.length_map, sortLex,
    (List.perm_insertionSort lexLe _).length_eq]
  exact (mercadosOf_dfSorted_perm v).length_eq

theorem topN_le_length (v : List Obs) : topN v ≤ (rankingMercados v).length :=
  min_le_right _ _

/-- Claim C6: `rank_markets` yields exactly the (market, mean price) pairs
of the view's distinct markets, sorted descending by mean price;
`K = min(10, distinct market count)`; the top slice is the first `K`
entries and the bottom slice is a re-sort (ascending) of the last `K`
entries, both of size `K` and both contained in the full ranking, with no
special case when there are 10 or fewer markets. -/
theorem c6_ranking (v : List Obs) :
    List.Sorted descByPrecio (rankingMercados v) ∧
    (rankingMercados v).length = (mercadosOf v).length ∧
    (∀ m ∈ mercadosOf v,
      (m, mean ((v.filter (fun o => decide (o.mercado = m))).map
        (fun o => o.precio))) ∈ rankingMercados v) ∧
    (∀ p ∈ rankingMercados v, p.1 ∈ mercadosOf v ∧
      p.2 = mean ((v.filter (fun o => decide (o.mercado = p.1))).map
        (fun o => o.precio))) ∧
    topN v = min 10 (mercadosOf v).length ∧
    topMercados v = (rankingMercados v).take (topN v) ∧
    (topMercados v).length = topN v ∧
    (∀ x ∈ topMercados v, x ∈ rankingMercados v) ∧
    (bottomMercados v).length = topN v ∧
    (∀ x ∈ bottomMercados v, x ∈ rankingMercados v) ∧
    List.Sorted ascByPrecio (bottomMercados v) ∧
    List.Perm (bottomMercados v)
      ((rankingMercados v).drop ((rankingMercados v).length - topN v)) := by
  refine ⟨List.sorted_insertionSort descByPrecio _, rankingMercados_length v,
    ?_, ?_, ?_, rfl, ?_, ?_, ?_, ?_,
    List.sorted_insertionSort ascByPrecio _,
    List.perm_insertionSort ascByPrecio _⟩
  · intro m hm
    have hm' : m ∈ sortLex (mercadosOf (dfSorted v)) :=
      (List.mem_insertionSort lexLe).mpr ((mercadosOf_dfSorted_perm v).mem_iff.mpr hm)
    have hmean : mean (((dfSorted v).filter (fun o => decide (o.mercado = m))).map
        (fun o => o.precio)) =
        mean ((v.filter (fun o => decide (o.mercado = m))).map (fun o => o.precio)) :=
      mean_perm (((dfSorted_perm v).filter _).map _)
    rw [rankingMercados]
    apply (List.mem_insertionSort descByPrecio).mpr
    rw [groupbyMercadoMean, ← hmean]
    exact List.mem_map_of_mem _ hm'
  · intro p hp
    rw [rankingMercados] at hp
    have hp' := (List.mem_insertionSort descByPrecio).mp hp
    rw [groupbyMercadoMean] at hp'
    rcases List.mem_map.mp hp' with ⟨m, hm, heq⟩
    have h1 : p.1 = m := by rw [← heq]
    have h2 : p.2 = mean (((dfSorted v).filter
        (fun o => decide (o.mercado = m))).map (fun o => o.precio)) := by
      rw [← heq]
    refine ⟨?_, ?_⟩
    · rw [h1]
      exact (mercadosOf_dfSorted_perm v).mem_iff.mp ((List.mem_insertionSort lexLe).mp hm)
    · rw [h2, h1]
      exact mean_perm (((dfSorted_perm v).filter _).map _)
  · rw [topN, rankingMercados_length v]
  · rw [topMercados, List.length_take]
    exact min_eq_left (topN_le_length v)
  · intro x hx
    exact List.take_subset _ _ hx
  · rw [bottomMercados, (List.perm_insertionSort ascByPrecio _).length_eq,
      List.length_drop]
    have := topN_le_length v
    omega
  · intro x hx
    rw [bottomMercados] at hx
    exact List.drop_subset _ _ ((List.mem_insertionSort ascByPrecio).mp hx)

/-- Witness for `c6_ranking`: market B (code point 66) of the two-market
view appears in the ranking with its mean price. -/
theorem c6_ranking_witness :
    ([66], mean ((c6View.filter (fun o => decide (o.mercado = [66]))).map
      (fun o => o.precio))) ∈ rankingMercados c6View :=
  (c6_ranking c6View).2.2.1 [66] (by decide)

/-! ### Claim C7 -/

/-- Claim C7: with an empty market selection the filter stage keeps every
observation that matches the date range and product, and the result is
the same as selecting the full set of markets available for that product
and date range. -/
theorem c7_empty_markets (ds : List Obs) (fs : FilterSpec)
    (h : fs.mercados = []) :
    filterView ds fs = dfProducto ds fs ∧
    filterView ds fs = filterView ds
      ⟨fs.dateStart, fs.dateEnd, fs.producto,
        mercadosDisponibles (dfProducto ds fs)⟩ := by
  have h1 : filterView ds fs = dfProducto ds fs := by
    rw [filterView, if_pos h]
  refine ⟨h1, ?_⟩
  rw [h1, filterView]
  by_cases hd : mercadosDisponibles (dfProducto ds fs) = []
  · rw [show (FilterSpec.mk fs.dateStart fs.dateEnd fs.producto
      (mercadosDisponibles (dfProducto ds fs))).mercados =
        mercadosDisponibles (dfProducto ds fs) from rfl, if_pos hd]
    rfl
  · rw [show (FilterSpec.mk fs.dateStart fs.dateEnd fs.producto
      (mercadosDisponibles (dfProducto ds fs))).mercados =
        mercadosDisponibles (dfProducto ds fs) from rfl, if_neg hd]
    have hdf : dfProducto ds
        ⟨fs.dateStart, fs.dateEnd, fs.producto,
          mercadosDisponibles (dfProducto ds fs)⟩ = dfProducto ds fs := rfl
    rw [hdf]
    symm
    rw [List.filter_eq_self]
    intro o ho
    have : o.mercado ∈ mercadosDisponibles (dfProducto ds fs) := by
      rw [mercadosDisponibles, sortLex]
      apply (List.mem_insertionSort lexLe).mpr
      rw [mercadosOf]
      exact List.mem_dedup.mpr (List.mem_map_of_mem _ ho)
    exact decide_eq_true this

/-- Witness for `c7_empty_markets` on a concrete dataset and query. -/
theorem c7_empty_markets_witness :
    filterView c7Ds c7Fs = dfProducto c7Ds c7Fs :=
  (c7_empty_markets c7Ds c7Fs rfl).1

/-! ### Claim C8 -/

theorem dfSorted_ne_nil {v : List Obs} (hv : v ≠ []) : dfSorted v ≠ [] := by
  intro h0
  apply hv
  have hl := (dfSorted_perm v).length_eq
  rw [h0] at hl
  exact List.length_eq_zero.mp hl.symm

theorem fechaMin_all_eq {v : List Obs} {d : Int} (hv : v ≠ [])
    (hd : ∀ o ∈ v, o.fecha = d) : fechaMin v = d := by
  rw [fechaMin, optMin_all_eq d]
  · rfl
  · rw [Ne, List.map_eq_nil_iff]
    exact dfSorted_ne_nil hv
  · intro x hx
    rcases List.mem_map.mp hx with ⟨o, ho, rfl⟩
    exact hd o ((dfSorted_perm v).subset ho)

theorem fechaMax_all_eq {v : List Obs} {d : Int} (hv : v ≠ [])
    (hd : ∀ o ∈ v, o.fecha = d) : fechaMax v = d := by
  rw [fechaMax, optMax_all_eq d]
  · rfl
  · rw [Ne, List.map_eq_nil_iff]
    exact dfSorted_ne_nil hv
  · intro x hx
    rcases List.mem_map.mp hx with ⟨o, ho, rfl⟩
    exact hd o ((dfSorted_perm v).subset ho)

/-- Claim C8: on a non-empty view whose observations all share one date,
`initial_price` equals `final_price`, and any defined `variation_pct`
equals zero. -/
theorem c8_single_date (v : List Obs) (d : Int) (hv : v ≠ [])
    (hd : ∀ o ∈ v, o.fecha = d) :
    precioInicial v = precioFinal v ∧
    (∀ q, variacionPct v = some q → q = 0) := by
  have heq : precioInicial v = precioFinal v := by
    rw [precioInicial, precioFinal, fechaMin_all_eq hv hd, fechaMax_all_eq hv hd]
  refine ⟨heq, fun q hq => ?_⟩
  rw [variacionPct] at hq
  split at hq
  · rename_i hgt
    have hne : precioInicial v ≠ 0 := ne_of_gt hgt
    have hq' := Option.some_inj.mp hq
    rw [← hq', ← heq, div_self hne]
    ring
  · exact absurd hq (by simp)

/-- Witness for `c8_single_date` on a concrete single-date view. -/
theorem c8_single_date_witness :
    precioInicial c8View = precioFinal c8View :=
  (c8_single_date c8View 7 (by decide) (by decide)).1

/-! ### Claim C9 -/

theorem pivot_lookup_aux (f : Int × PStr → Int × PStr × ℚ) (d : Int) (m : PStr)
    (hf1 : ∀ k, (f k).1 = k.1) (hf2 : ∀ k, (f k).2.1 = k.2) :
    ∀ ks : List (Int × PStr),
    ((ks.map f).find? (fun t => decide (t.1 = d) && decide (t.2.1 = m))).map
        (fun t => t.2.2) =
      if (d, m) ∈ ks then some ((f (d, m)).2.2) else none
  | [] => by simp
  | k :: ks => by
    rw [List.map_cons, List.find?_cons]
    by_cases hk : k = (d, m)
    · subst hk
      have hp : (decide ((f (d, m)).1 = d) && decide ((f (d, m)).2.1 = m)) = true := by
        rw [hf1, hf2]
        simp
      simp [hp]
    · have hp : (decide ((f k).1 = d) && decide ((f k).2.1 = m)) = false := by
        rw [hf1, hf2]
        rcases k with ⟨k1, k2⟩
        by_cases h1 : k1 = d
        · subst h1
          have h2 : k2 ≠ m := fun h => hk (by rw [h])
          simp [h2]
        · simp [h1]
      simp only [hp]
      rw [pivot_lookup_aux f d m hf1 hf2 ks]
      simp [Ne.symm hk]

theorem key_mem_iff (v : List Obs) (d : Int) (m : PStr) :
    ((d, m) ∈ ((dfSorted v).map (fun o => (o.fecha, o.mercado))).dedup) ↔
      v.filter (fun o => decide (o.fecha = d) && decide (o.mercado = m)) ≠ [] := by
  rw [List.mem_dedup, List.mem_map]
  constructor
  · rintro ⟨o, ho, heq⟩
    have hov : o ∈ v := (dfSorted_perm v).subset ho
    have h1 : o.fecha = d := congrArg Prod.fst heq
    have h2 : o.mercado = m := congrArg (fun p => p.2) heq
    have hpred : (decide (o.fecha = d) && decide (o.mercado = m)) = true := by
      simp [h1, h2]
    exact List.ne_nil_of_mem (List.mem_filter.mpr ⟨hov, hpred⟩)
  · intro hne
    rcases List.exists_mem_of_ne_nil _ hne with ⟨o, ho⟩
    have hof := List.mem_filter.mp ho
    refine ⟨o, (dfSorted_perm v).mem_iff.mpr hof.1, ?_⟩
    have hpred := hof.2
    simp only [Bool.and_eq_true, decide_eq_true_eq] at hpred
    rw [hpred.1, hpred.2]

/-- Claim C9: the (date, market) cell of the pivoted time-series matrix is
empty exactly when the view has no observation at that date and market,
and otherwise holds the arithmetic mean of `price_per_kg` over that
(date, market) group. -/
theorem c9_matrix_cells (v : List Obs) (d : Int) (m : PStr) :
    buildMatrix v d m =
      if v.filter (fun o => decide (o.fecha = d) && decide (o.mercado = m)) = []
      then none
      else some (mean ((v.filter (fun o =>
        decide (o.fecha = d) && decide (o.mercado = m))).map (fun o => o.precio))) := by
  rw [buildMatrix, pivotCell, serie]
  rw [pivot_lookup_aux _ d m (fun k => rfl) (fun k => rfl)]
  by_cases hmem : (d, m) ∈ ((dfSorted v).map (fun o => (o.fecha, o.mercado))).dedup
  · rw [if_pos hmem, if_neg (by rw [← Ne]; exact (key_mem_iff v d m).mp hmem)]
    rw [Option.some_inj]
    exact mean_perm (((dfSorted_perm v).filter _).map _)
  · rw [if_neg hmem, if_pos (by
      have := (key_mem_iff v d m).not.mp hmem
      exact not_not.mp this)]

/-! ### Claim C10 -/

theorem mercadosDisponibles_sorted (v : List Obs) :
    List.Sorted lexLe (mercadosDisponibles v) :=
  List.sorted_insertionSort lexLe (mercadosOf v)

theorem mercadosDisponibles_nodup (v : List Obs) :
    (mercadosDisponibles v).Nodup :=
  (List.perm_insertionSort lexLe (mercadosOf v)).nodup_iff.mpr
    (List.nodup_dedup _)

/-- Claim C10: the default market selection is all available markets when
there are at most 5 of them, and otherwise exactly the first 5 of the
alphabetically sorted available markets — 5 markets, still sorted, all
available, each ordered before every market left out, with at least one
market left out (so the default query excludes the rest). -/
theorem c10_default_markets (v : List Obs) :
    List.Sorted lexLe (mercadosDisponibles v) ∧
    ((mercadosDisponibles v).length ≤ 5 →
      mercadosDefault v = mercadosDisponibles v) ∧
    (5 < (mercadosDisponibles v).length →
      (mercadosDefault v).length = 5 ∧
      List.Sorted lexLe (mercadosDefault v) ∧
      (∀ x ∈ mercadosDefault v, x ∈ mercadosDisponibles v) ∧
      (∀ x ∈ mercadosDefault v, ∀ y ∈ mercadosDisponibles v,
        y ∉ mercadosDefault v → lexLe x y) ∧
      (∃ y ∈ mercadosDisponibles v, y ∉ mercadosDefault v)) := by
  have hs := mercadosDisponibles_sorted v
  refine ⟨hs, fun h => by rw [mercadosDefault, if_pos h], fun h => ?_⟩
  have hdef : mercadosDefault v = (mercadosDisponibles v).take 5 := by
    rw [mercadosDefault, if_neg (not_le.mpr h)]
  have hsplit := List.take_append_drop 5 (mercadosDisponibles v)
  have hpw : List.Pairwise lexLe
      ((mercadosDisponibles v).take 5 ++ (mercadosDisponibles v).drop 5) := by
    rw [hsplit]
    exact hs
  have happ := List.pairwise_append.mp hpw
  have hnd : ((mercadosDisponibles v).take 5 ++
      (mercadosDisponibles v).drop 5).Nodup := by
    rw [hsplit]
    exact mercadosDisponibles_nodup v
  have hdisj := (List.nodup_append.mp hnd).2.2
  refine ⟨?_, ?_, ?_, ?_, ?_⟩
  · rw [hdef, List.length_take]
    omega
  · rw [hdef]
    exact hs.sublist (List.take_sublist 5 _)
  · intro x hx
    rw [hdef] at hx
    exact List.take_subset _ _ hx
  · intro x hx y hy hyn
    rw [hdef] at hx hyn
    have hy' : y ∈ (mercadosDisponibles v).drop 5 := by
      rcases List.mem_append.mp (by rw [hsplit]; exact hy) with h1 | h1
      · exact absurd h1 hyn
      · exact h1
    exact happ.2.2 x hx y hy'
  · have hne : (mercadosDisponibles v).drop 5 ≠ [] := by
      intro h0
      have := List.length_drop 5 (mercadosDisponibles v)
      rw [h0] at this
      simp at this
      omega
    rcases List.exists_mem_of_ne_nil _ hne with ⟨y, hy⟩
    refine ⟨y, List.drop_subset _ _ hy, ?_⟩
    rw [hdef]
    intro hyn
    exact hdisj hyn hy

/-- Witness for `c10_default_markets` on the six-market view. -/
theorem c10_default_markets_witness :
    5 < (mercadosDisponibles c10View).length ∧
      (mercadosDefault c10View).length = 5 :=
  ⟨by decide, ((c10_default_markets c10View).2.2 (by decide)).1⟩
